import Mathlib

/-
Verification of the baseball-player CRUD backend (server/src/server).

The Python source is shallowly embedded:
- Python runtime values flowing through the untyped parts of the code
  (JSON payloads, dataclass fields, database cells) are modelled by `PyVal`.
- Python floats are modelled by `Rat`: the code only parses decimal
  numerals, stores them, and compares them; no float arithmetic whose
  rounding could matter to any claim is performed.
- Exceptions are modelled by `Except PyErr`.
- The PostgreSQL store is modelled by `DB`: a list of player rows, the
  next SERIAL id, and the player_descriptions table.  Timestamps
  (created_at / updated_at) are not modelled; the claims about state
  equality explicitly set them aside.
-/

/-- Dynamic Python values as they appear in JSON payloads and dataclass
fields.  The dataclass annotations are not enforced by Python, so fields
may hold any of these. -/
inductive PyVal where
  | none_
  | int (n : Int)
  | float (q : Rat)
  | str (s : String)
  | bool (b : Bool)
deriving DecidableEq, Repr

/-- Python exceptions relevant to the embedded code. -/
inductive PyErr where
  | keyError (k : String)
  | typeError (msg : String)
  | valueError (msg : String)
  | nameError (msg : String)
deriving DecidableEq, Repr

/-- Value of a list of decimal digit characters. -/
def digitsToNat (l : List Char) : Nat :=
  l.foldl (fun a c => a * 10 + (c.toNat - 48)) 0

/-- Parse a plain decimal numeral (optional sign, digits, optional
fractional part), the shape of every numeric string the code feeds to
Python `float()`.  Returns `none` on any other string, as `float()`
raises there. -/
def parseDecimal (s : String) : Option Rat :=
  let cs := s.toList
  let signed : Bool × List Char :=
    match cs with
    | '-' :: rest => (true, rest)
    | '+' :: rest => (false, rest)
    | _ => (false, cs)
  let neg := signed.1
  let body := signed.2
  let intPart := body.takeWhile (fun c => c.isDigit)
  let rest := body.dropWhile (fun c => c.isDigit)
  match rest with
  | [] =>
    if intPart.isEmpty then none
    else some (mkRat (cond neg (-(digitsToNat intPart : Int)) (digitsToNat intPart : Int)) 1)
  | '.' :: fracRest =>
    let fracPart := fracRest.takeWhile (fun c => c.isDigit)
    let tail := fracRest.dropWhile (fun c => c.isDigit)
    if tail.isEmpty && !(intPart.isEmpty && fracPart.isEmpty) then
      let n : Int := (digitsToNat intPart : Int) * ((10 : Int) ^ fracPart.length) + (digitsToNat fracPart : Int)
      some (mkRat (cond neg (-n) n) ((10 : Nat) ^ fracPart.length))
    else none
  | _ => none

/-- Python `float(v)`: numbers convert, numeric strings parse, other
strings raise ValueError, None raises TypeError. -/
def pyFloat : PyVal → Except PyErr Rat
  | .int n => .ok (mkRat n 1)
  | .float q => .ok q
  | .bool b => .ok (mkRat (cond b 1 0) 1)
  | .str s =>
    match parseDecimal s with
    | some q => .ok q
    | none => .error (.valueError ("could not convert string to float: " ++ s))
  | .none_ => .error (.typeError "float() argument must be a string or a real number, not NoneType")

/-- The `BaseballPlayer` dataclass of utils.py.  Fields other than `id`
are dynamically typed in Python and so hold `PyVal`. -/
structure BaseballPlayer where
  id : Option Int := none
  player_name : PyVal := .str ""
  position : PyVal := .str ""
  games : PyVal := .int 0
  at_bats : PyVal := .int 0
  runs : PyVal := .int 0
  hits : PyVal := .int 0
  doubles : PyVal := .int 0
  triples : PyVal := .int 0
  home_runs : PyVal := .int 0
  rbis : PyVal := .int 0
  walks : PyVal := .int 0
  strikeouts : PyVal := .int 0
  stolen_bases : PyVal := .int 0
  caught_stealing : PyVal := .int 0
  batting_average : PyVal := .float 0
  on_base_percentage : PyVal := .float 0
  slugging_percentage : PyVal := .float 0
  ops : PyVal := .float 0
  is_edited : PyVal := .bool false
deriving DecidableEq, Repr

/-- `raw[k]` on a Python dict (modelled as an association list):
KeyError when the key is absent. -/
def dictGet (raw : List (String × PyVal)) (k : String) : Except PyErr PyVal :=
  match raw.lookup k with
  | some v => .ok v
  | none => .error (.keyError k)

/-- `BaseballPlayer.from_raw` of utils.py.  Keys are read in the source
order of the constructor arguments; counting statistics are assigned
without coercion, the four rate statistics go through `float()`.
The keys "third baseman" and "a walk" feed `triples` and `walks`. -/
def fromRaw (raw : List (String × PyVal)) : Except PyErr BaseballPlayer := do
  let pn ← dictGet raw "Player name"
  let pos ← dictGet raw "position"
  let g ← dictGet raw "Games"
  let ab ← dictGet raw "At-bat"
  let ru ← dictGet raw "Runs"
  let h ← dictGet raw "Hits"
  let dbl ← dictGet raw "Double (2B)"
  let tr ← dictGet raw "third baseman"
  let hr ← dictGet raw "home run"
  let rbi ← dictGet raw "run batted in"
  let wk ← dictGet raw "a walk"
  let so ← dictGet raw "Strikeouts"
  let sb ← dictGet raw "stolen base"
  let cs ← dictGet raw "Caught stealing"
  let avgV ← dictGet raw "AVG"
  let avg ← pyFloat avgV
  let obpV ← dictGet raw "On-base Percentage"
  let obp ← pyFloat obpV
  let slgV ← dictGet raw "Slugging Percentage"
  let slg ← pyFloat slgV
  let opsV ← dictGet raw "On-base Plus Slugging"
  let opsQ ← pyFloat opsV
  .ok { id := none, player_name := pn, position := pos, games := g, at_bats := ab,
        runs := ru, hits := h, doubles := dbl, triples := tr, home_runs := hr,
        rbis := rbi, walks := wk, strikeouts := so, stolen_bases := sb,
        caught_stealing := cs, batting_average := .float avg,
        on_base_percentage := .float obp, slugging_percentage := .float slg,
        ops := .float opsQ, is_edited := .bool false }

/-- The per-record error wrapping in `fetch_baseball_players_from_api`:
KeyError and TypeError are caught and re-raised as
ValueError("Invalid player data structure: ..."), with the original
message (for a KeyError, the offending key) embedded; a ValueError from
`float()` escapes the handler unwrapped. -/
def wrapParseErr : PyErr → PyErr
  | .keyError k => .valueError ("Invalid player data structure: " ++ k)
  | .typeError m => .valueError ("Invalid player data structure: " ++ m)
  | .valueError m => .valueError m
  | .nameError m => .nameError m

/-- The decoding loop of `fetch_baseball_players_from_api`, applied to
the already-decoded JSON array (the HTTP transport is external). -/
def parsePlayers : List (List (String × PyVal)) → Except PyErr (List BaseballPlayer)
  | [] => .ok []
  | raw :: rest =>
    match fromRaw raw with
    | .ok p => (parsePlayers rest).map (fun l => p :: l)
    | .error e => .error (wrapParseErr e)

/-- One row of the `players` table (timestamp columns not modelled). -/
structure Row where
  id : Int
  player_name : PyVal
  position : PyVal
  games : PyVal
  at_bats : PyVal
  runs : PyVal
  hits : PyVal
  doubles : PyVal
  triples : PyVal
  home_runs : PyVal
  rbis : PyVal
  walks : PyVal
  strikeouts : PyVal
  stolen_bases : PyVal
  caught_stealing : PyVal
  batting_average : PyVal
  on_base_percentage : PyVal
  slugging_percentage : PyVal
  ops : PyVal
  is_edited : PyVal
deriving DecidableEq, Repr

/-- The database: the `players` table in natural order, the next SERIAL
id, and the `player_descriptions` table as (player_id, description). -/
structure DB where
  rows : List Row := []
  nextId : Int := 1
  descriptions : List (Int × String) := []
deriving DecidableEq, Repr

/-- The row written for player `p` with primary key `i` and is_edited
column `flag` — the column list shared by the INSERT of
`save_player_to_db` and the SET list of `update_player_in_db`. -/
def mkRow (p : BaseballPlayer) (i : Int) (flag : PyVal) : Row :=
  { id := i, player_name := p.player_name, position := p.position, games := p.games,
    at_bats := p.at_bats, runs := p.runs, hits := p.hits, doubles := p.doubles,
    triples := p.triples, home_runs := p.home_runs, rbis := p.rbis, walks := p.walks,
    strikeouts := p.strikeouts, stolen_bases := p.stolen_bases,
    caught_stealing := p.caught_stealing, batting_average := p.batting_average,
    on_base_percentage := p.on_base_percentage,
    slugging_percentage := p.slugging_percentage, ops := p.ops, is_edited := flag }

/-- `save_player_to_db`: unconditional INSERT, the store assigns the next
SERIAL id.  The schema in db.py declares no uniqueness constraint on
player_name (only a plain index), so the insert succeeds regardless of
name collisions. -/
def savePlayerToDb (p : BaseballPlayer) (db : DB) : Int × DB :=
  (db.nextId,
   { db with rows := db.rows ++ [mkRow p db.nextId p.is_edited], nextId := db.nextId + 1 })

/-- `UPDATE ... WHERE id = i`: every row whose id matches is overwritten. -/
def replaceById (rows : List Row) (i : Int) (nr : Row) : List Row :=
  rows.map (fun r => if r.id = i then nr else r)

/-- `update_player_in_db`.  The guard is Python `if not player.id`, i.e.
truthiness: it raises for id None and also for id 0.  Otherwise every
column of the matching row is overwritten (is_edited included) and the
row-count feedback is returned. -/
def updatePlayerInDb (p : BaseballPlayer) (db : DB) : Except PyErr (Bool × DB) :=
  match p.id with
  | none => .error (.valueError "Player ID is required for update")
  | some i =>
    if i = 0 then .error (.valueError "Player ID is required for update")
    else
      .ok (db.rows.any (fun r => decide (r.id = i)),
           { db with rows := replaceById db.rows i (mkRow p i p.is_edited) })

/-- `SELECT ... WHERE player_name = %s` with `fetchone()`: the first row
in natural order whose name equals the parameter. -/
def findByName (rows : List Row) (nm : PyVal) : Option Row :=
  rows.find? (fun r => decide (r.player_name = nm))

/-- The per-record loop body composition of `sync_players_from_api`,
taking the already-fetched player list (the HTTP fetch is external).
On a name match the stored is_edited flag and id are copied onto the
fetched player before `update_player_in_db`; otherwise
`save_player_to_db` inserts it.  (The source reads the matched row twice
— id then is_edited — both via the same first-match query.) -/
def syncPlayersCore : List BaseballPlayer → DB → Except PyErr DB
  | [], db => .ok db
  | p :: rest, db =>
    match findByName db.rows p.player_name with
    | some existing =>
      match updatePlayerInDb { p with id := some existing.id, is_edited := existing.is_edited } db with
      | .ok (_, db2) => syncPlayersCore rest db2
      | .error e => .error e
    | none => syncPlayersCore rest (savePlayerToDb p db).2

/-- `from_db_row`: counting columns are assigned as stored, the four rate
columns go through `float()`, is_edited is read with default False (the
column is always present in the model). -/
def playerOfRow (r : Row) : Except PyErr BaseballPlayer := do
  let ba ← pyFloat r.batting_average
  let obp ← pyFloat r.on_base_percentage
  let slg ← pyFloat r.slugging_percentage
  let opsQ ← pyFloat r.ops
  .ok { id := some r.id, player_name := r.player_name, position := r.position,
        games := r.games, at_bats := r.at_bats, runs := r.runs, hits := r.hits,
        doubles := r.doubles, triples := r.triples, home_runs := r.home_runs,
        rbis := r.rbis, walks := r.walks, strikeouts := r.strikeouts,
        stolen_bases := r.stolen_bases, caught_stealing := r.caught_stealing,
        batting_average := .float ba, on_base_percentage := .float obp,
        slugging_percentage := .float slg, ops := .float opsQ,
        is_edited := r.is_edited }

/-- `get_all_players_from_db`: utils.py:188 constructs its cursor with
`cursor_factory=RealDictCursor`, but utils.py never imports
RealDictCursor (the import sits unused in db.py), so every call raises
NameError at cursor construction — before the allow-list fallback and
before any query text is interpolated.  The first component is the list
of queries issued during the call: always empty. -/
def getAllPlayersFromDb (sortBy : String) (db : DB) :
    List String × Except PyErr (List BaseballPlayer) :=
  ([], .error (.nameError "name 'RealDictCursor' is not defined"))

/-- `get_player_by_id`: utils.py:215 constructs its cursor with
`cursor_factory=RealDictCursor`, a name never imported in utils.py, so
every call raises NameError there — before the SELECT and before
`from_db_row` is reached. -/
def getPlayerById (pid : Int) (db : DB) : Except PyErr (Option BaseballPlayer) :=
  .error (.nameError "name 'RealDictCursor' is not defined")

/-- `get_player_description`: the stored text when an entry exists for
the player id, even when that text is the empty string. -/
def getPlayerDescription (pid : Int) (db : DB) : Option String :=
  match db.descriptions.find? (fun e => decide (e.1 = pid)) with
  | some e => some e.2
  | none => none

/-- `save_player_description`: INSERT ... ON CONFLICT (player_id)
DO UPDATE — an upsert keyed by the player id. -/
def savePlayerDescription (pid : Int) (d : String) (db : DB) : DB :=
  if db.descriptions.any (fun e => decide (e.1 = pid)) then
    { db with descriptions := db.descriptions.map (fun e => if e.1 = pid then (pid, d) else e) }
  else
    { db with descriptions := db.descriptions ++ [(pid, d)] }

/-- Python truthiness of an Optional[str]: None and "" are falsy. -/
def truthyStr : Option String → Bool
  | some s => decide (s ≠ "")
  | none => false

/-- `get_or_generate_player_description`.  The external text-generation
call is modelled by the oracle `gen`; the first component counts how
many times it was invoked.  The cache test is Python `if cached:`, so an
empty cached string is treated as a miss; on a miss the call reaches
`get_player_by_id`, whose unconditional NameError propagates, so the
generation and persist branches below are unreachable in this source. -/
def getOrGenerateDesc (gen : BaseballPlayer → String) (pid : Int) (db : DB) :
    Nat × Except PyErr (String × DB) :=
  let cached := getPlayerDescription pid db
  if truthyStr cached then (0, .ok (cached.getD "", db))
  else
    match getPlayerById pid db with
    | .error e => (0, .error e)
    | .ok none => (0, .error (.valueError ("Player with ID " ++ toString pid ++ " not found")))
    | .ok (some p) =>
      (1, .ok (gen p, savePlayerDescription pid (gen p) db))

/-- Response of the GET /api/players route: the queries issued against
the store during the call, the HTTP status, and the payload. -/
structure ListResponse where
  queriesIssued : List String
  status : Nat
  players : List BaseballPlayer
  errMsg : String
deriving DecidableEq, Repr

/-- The `get_players` route handler: the sort key is checked against the
allow-list hits / home_runs / hits_per_game before
`get_all_players_from_db` is called; a key outside it is answered with
400 and no query is constructed. -/
def getPlayersRoute (sortBy : String) (db : DB) : ListResponse :=
  if sortBy = "hits" ∨ sortBy = "home_runs" ∨ sortBy = "hits_per_game" then
    let res := getAllPlayersFromDb sortBy db
    match res.2 with
    | .ok ps => ⟨res.1, 200, ps, ""⟩
    | .error _ => ⟨res.1, 500, [], "server error"⟩
  else
    ⟨[], 400, [], "sort_by must be hits, home_runs, or hits_per_game"⟩

/-- Dataclass attribute names taking JSON values on update. -/
def countingKeys : List String :=
  ["games", "at_bats", "runs", "hits", "doubles", "triples", "home_runs",
   "rbis", "walks", "strikeouts", "stolen_bases", "caught_stealing"]

def rateKeys : List String :=
  ["batting_average", "on_base_percentage", "slugging_percentage", "ops"]

/-- `hasattr(player, key)` over the BaseballPlayer dataclass. -/
def playerAttrs : List String :=
  ["id", "player_name", "position"] ++ countingKeys ++ rateKeys ++ ["is_edited"]

/-- The None-coercion of the update route: counting keys to 0, rate keys
to 0.0, is_edited to False; other keys keep the None. -/
def coerceNull (k : String) (v : PyVal) : PyVal :=
  match v with
  | .none_ =>
    if countingKeys.contains k then .int 0
    else if rateKeys.contains k then .float 0
    else if k = "is_edited" then .bool false
    else .none_
  | _ => v

/-- `setattr(player, k, v)` over the dataclass fields (id is filtered out
before this point by the computed-fields check). -/
def setAttr (p : BaseballPlayer) (k : String) (v : PyVal) : BaseballPlayer :=
  if k = "player_name" then { p with player_name := v }
  else if k = "position" then { p with position := v }
  else if k = "games" then { p with games := v }
  else if k = "at_bats" then { p with at_bats := v }
  else if k = "runs" then { p with runs := v }
  else if k = "hits" then { p with hits := v }
  else if k = "doubles" then { p with doubles := v }
  else if k = "triples" then { p with triples := v }
  else if k = "home_runs" then { p with home_runs := v }
  else if k = "rbis" then { p with rbis := v }
  else if k = "walks" then { p with walks := v }
  else if k = "strikeouts" then { p with strikeouts := v }
  else if k = "stolen_bases" then { p with stolen_bases := v }
  else if k = "caught_stealing" then { p with caught_stealing := v }
  else if k = "batting_average" then { p with batting_average := v }
  else if k = "on_base_percentage" then { p with on_base_percentage := v }
  else if k = "slugging_percentage" then { p with slugging_percentage := v }
  else if k = "ops" then { p with ops := v }
  else if k = "is_edited" then { p with is_edited := v }
  else p

/-- The field loop of the update route: keys that are attributes and not
in the computed set {id, hits_per_game} are coerced and assigned. -/
def applyUpdates (p : BaseballPlayer) (data : List (String × PyVal)) : BaseballPlayer :=
  List.foldl
    (fun acc kv =>
      if playerAttrs.contains kv.1 ∧ kv.1 ≠ "id" ∧ kv.1 ≠ "hits_per_game" then
        setAttr acc kv.1 (coerceNull kv.1 kv.2)
      else acc)
    p data

/-- Response of the PUT /api/players/id route, with the database state
after the call. -/
structure UpdateResponse where
  status : Nat
  errMsg : String
  db : DB
deriving DecidableEq, Repr

/-- The `update_player` route handler: load the player, apply the
request fields with None-coercion, then unconditionally set
is_edited = True and id = player_id before `update_player_in_db`. -/
def updatePlayerRoute (pid : Int) (data : List (String × PyVal)) (db : DB) : UpdateResponse :=
  match getPlayerById pid db with
  | .error _ => ⟨500, "server error", db⟩
  | .ok none => ⟨404, "Player not found", db⟩
  | .ok (some player) =>
    if data = [] then ⟨400, "No data provided", db⟩
    else
      let p2 := { applyUpdates player data with is_edited := PyVal.bool true, id := some pid }
      match updatePlayerInDb p2 db with
      | .error _ => ⟨400, "Player ID is required for update", db⟩
      | .ok (true, db2) => ⟨200, "", db2⟩
      | .ok (false, db2) => ⟨500, "Failed to update player", db2⟩

/-- One column declaration of the CREATE TABLE players statement in
db.py, keeping only the constraint facts the claims are about. -/
structure ColumnSpec where
  colName : String
  isUnique : Bool
  isPrimaryKey : Bool
deriving DecidableEq, Repr

/-- The players table DDL: id SERIAL PRIMARY KEY, every other column
carries no UNIQUE constraint; the only index on player_name is the
plain (non-unique) idx_players_name. -/
def playersTableColumns : List ColumnSpec :=
  [⟨"id", false, true⟩, ⟨"player_name", false, false⟩, ⟨"position", false, false⟩,
   ⟨"games", false, false⟩, ⟨"at_bats", false, false⟩, ⟨"runs", false, false⟩,
   ⟨"hits", false, false⟩, ⟨"doubles", false, false⟩, ⟨"triples", false, false⟩,
   ⟨"home_runs", false, false⟩, ⟨"rbis", false, false⟩, ⟨"walks", false, false⟩,
   ⟨"strikeouts", false, false⟩, ⟨"stolen_bases", false, false⟩,
   ⟨"caught_stealing", false, false⟩, ⟨"batting_average", false, false⟩,
   ⟨"on_base_percentage", false, false⟩, ⟨"slugging_percentage", false, false⟩,
   ⟨"ops", false, false⟩, ⟨"is_edited", false, false⟩,
   ⟨"created_at", false, false⟩, ⟨"updated_at", false, false⟩]

deriving instance DecidableEq for Except

/-- One merge step of the sync loop, on (players table, next SERIAL id),
extracted from `syncPlayersCore` for reasoning: on a name match the
matched row is overwritten keeping its id and is_edited column,
otherwise the player is appended with a fresh id. -/
def pureSyncStep (p : BaseballPlayer) (st : List Row × Int) : List Row × Int :=
  match findByName st.1 p.player_name with
  | some ex => (replaceById st.1 ex.id (mkRow p ex.id ex.is_edited), st.2)
  | none => (st.1 ++ [mkRow p st.2 p.is_edited], st.2 + 1)

/-- The sync loop over the fetched list, as a pure state transformer. -/
def pureSync : List BaseballPlayer → List Row × Int → List Row × Int
  | [], st => st
  | p :: rest, st => pureSync rest (pureSyncStep p st)

def idsOf (rows : List Row) : List Int := rows.map (fun r => r.id)

/-- Store invariant delivered by the SERIAL primary key: ids are
positive, below the id counter, and pairwise distinct. -/
def WFdb (rows : List Row) (n : Int) : Prop :=
  0 < n ∧ (∀ r ∈ rows, 0 < r.id ∧ r.id < n) ∧ (idsOf rows).Nodup

instance (rows : List Row) (n : Int) : Decidable (WFdb rows n) := by
  unfold WFdb; infer_instance

/-- The identifying part of a row that sync never rewrites: name, id and
the is_edited column. -/
def skel (r : Row) : PyVal × Int × PyVal := (r.player_name, r.id, r.is_edited)

def skels (rows : List Row) : List (PyVal × Int × PyVal) := rows.map skel

theorem eq_of_id_eq {rows : List Row} (hnd : (idsOf rows).Nodup) {a b : Row}
    (ha : a ∈ rows) (hb : b ∈ rows) (h : a.id = b.id) : a = b :=
  List.inj_on_of_nodup_map hnd ha hb h

theorem findByName_congr {l1 l2 : List Row} (h : skels l1 = skels l2) (nm : PyVal) :
    (findByName l1 nm).map skel = (findByName l2 nm).map skel := by
  induction l1 generalizing l2 with
  | nil => cases l2 with
    | nil => rfl
    | cons b bs => simp [skels] at h
  | cons a as ih =>
    cases l2 with
    | nil => simp [skels] at h
    | cons b bs =>
      simp only [skels, List.map_cons, List.cons.injEq] at h
      have hname : a.player_name = b.player_name := by
        have := congrArg Prod.fst h.1
        simpa [skel] using this
      unfold findByName
      by_cases hm : a.player_name = nm
      · rw [List.find?_cons_of_pos _ (by simpa using hm),
            List.find?_cons_of_pos _ (by simp [hname ▸ hm])]
        simpa using h.1
      · rw [List.find?_cons_of_neg _ (by simpa using hm),
            List.find?_cons_of_neg _ (by simp [← hname, hm])]
        exact ih h.2

theorem mkRow_skel (p : BaseballPlayer) (i : Int) (f : PyVal) :
    skel (mkRow p i f) = (p.player_name, i, f) := rfl

theorem replaceById_skels {rows : List Row} {ex : Row} (hex : ex ∈ rows)
    (hnd : (idsOf rows).Nodup) {p : BaseballPlayer}
    (hname : ex.player_name = p.player_name) :
    skels (replaceById rows ex.id (mkRow p ex.id ex.is_edited)) = skels rows := by
  unfold skels replaceById
  rw [List.map_map]
  refine List.map_congr_left (fun r hr => ?_)
  by_cases hid : r.id = ex.id
  · have : r = ex := eq_of_id_eq hnd hr hex hid
    subst this
    simp [skel, mkRow, hname]
  · simp [Function.comp, hid]

theorem replaceById_idsOf {rows : List Row} {i : Int} {nr : Row} (h : nr.id = i) :
    idsOf (replaceById rows i nr) = idsOf rows := by
  unfold idsOf replaceById
  rw [List.map_map]
  refine List.map_congr_left (fun r hr => ?_)
  by_cases hid : r.id = i <;> simp [Function.comp, hid, h]

theorem findByName_mem {rows : List Row} {nm : PyVal} {ex : Row}
    (h : findByName rows nm = some ex) : ex ∈ rows :=
  List.mem_of_find?_eq_some h

theorem findByName_name {rows : List Row} {nm : PyVal} {ex : Row}
    (h : findByName rows nm = some ex) : ex.player_name = nm := by
  have := List.find?_some h
  simpa using this

/-- One sync step preserves the store invariant. -/
theorem wf_step {rows : List Row} {n : Int} (h : WFdb rows n) (p : BaseballPlayer) :
    WFdb (pureSyncStep p (rows, n)).1 (pureSyncStep p (rows, n)).2 := by
  obtain ⟨hn, hb, hnd⟩ := h
  cases hfind : findByName rows p.player_name with
  | some ex =>
    simp only [pureSyncStep, hfind]
    refine ⟨hn, ?_, ?_⟩
    · intro r hr
      simp only [replaceById, List.mem_map] at hr
      obtain ⟨r0, hr0, hreq⟩ := hr
      by_cases hid : r0.id = ex.id
      · simp only [hid, if_pos rfl] at hreq
        subst hreq
        exact hb ex (findByName_mem hfind)
      · simp only [if_neg hid] at hreq
        subst hreq
        exact hb r0 hr0
    · rw [replaceById_idsOf (show (mkRow p ex.id ex.is_edited).id = ex.id from rfl)]
      exact hnd
  | none =>
    simp only [pureSyncStep, hfind]
    refine ⟨by omega, ?_, ?_⟩
    · intro r hr
      rcases List.mem_append.1 hr with hr | hr
      · have := hb r hr; omega
      · simp only [List.mem_singleton] at hr
        subst hr
        simp [mkRow]; omega
    · unfold idsOf
      rw [List.map_append]
      simp only [List.map_cons, List.map_nil]
      rw [List.nodup_append]
      refine ⟨hnd, List.nodup_singleton _, ?_⟩
      intro x hx
      simp only [idsOf, List.mem_map] at hx
      obtain ⟨r, hr, hrx⟩ := hx
      have := hb r hr
      simp [mkRow]
      omega

theorem wf_sync {F : List BaseballPlayer} {rows : List Row} {n : Int} (h : WFdb rows n) :
    WFdb (pureSync F (rows, n)).1 (pureSync F (rows, n)).2 := by
  induction F generalizing rows n with
  | nil => exact h
  | cons p rest ih =>
    have h1 := wf_step h p
    unfold pureSync
    exact ih h1

theorem find?_append_left {α} {p : α → Bool} {l1 l2 : List α} {a : α}
    (h : l1.find? p = some a) : (l1 ++ l2).find? p = some a := by
  induction l1 with
  | nil => simp at h
  | cons x xs ih =>
    rw [List.cons_append]
    by_cases hx : p x
    · rw [List.find?_cons_of_pos _ hx] at h
      rw [List.find?_cons_of_pos _ hx]
      exact h
    · rw [List.find?_cons_of_neg _ (by simpa using hx)] at h
      rw [List.find?_cons_of_neg _ (by simpa using hx)]
      exact ih h

theorem find?_append_right {α} {p : α → Bool} {l1 l2 : List α}
    (h : l1.find? p = none) : (l1 ++ l2).find? p = l2.find? p := by
  induction l1 with
  | nil => simp
  | cons x xs ih =>
    rw [List.cons_append]
    by_cases hx : p x
    · rw [List.find?_cons_of_pos _ hx] at h
      exact absurd h (by simp)
    · rw [List.find?_cons_of_neg _ (by simpa using hx)] at h
      rw [List.find?_cons_of_neg _ (by simpa using hx)]
      exact ih h

/-- A sync run only rewrites statistics: the sequence of (name, id,
is_edited) triples of the pre-existing rows survives unchanged, and
every appended row carries the is_edited value of some fetched player. -/
theorem sync_skels {F : List BaseballPlayer} {rows : List Row} {n : Int}
    (h : WFdb rows n) :
    ∃ t, skels (pureSync F (rows, n)).1 = skels rows ++ t ∧
      ∀ s ∈ t, ∃ p ∈ F, s.2.2 = p.is_edited := by
  induction F generalizing rows n with
  | nil => exact ⟨[], by simp [pureSync], by simp⟩
  | cons p rest ih =>
    obtain ⟨hn, hb, hnd⟩ := h
    cases hfind : findByName rows p.player_name with
    | some ex =>
      have hstep : pureSyncStep p (rows, n) =
          (replaceById rows ex.id (mkRow p ex.id ex.is_edited), n) := by
        simp [pureSyncStep, hfind]
      have hwf2 := wf_step ⟨hn, hb, hnd⟩ p
      rw [hstep] at hwf2
      obtain ⟨t, hsk, hflags⟩ := ih hwf2
      refine ⟨t, ?_, fun s hs => ?_⟩
      · show skels (pureSync rest (pureSyncStep p (rows, n))).1 = _
        rw [hstep, hsk,
            replaceById_skels (findByName_mem hfind) hnd (findByName_name hfind)]
      · obtain ⟨q, hq, hqe⟩ := hflags s hs
        exact ⟨q, List.mem_cons_of_mem _ hq, hqe⟩
    | none =>
      have hstep : pureSyncStep p (rows, n) =
          (rows ++ [mkRow p n p.is_edited], n + 1) := by
        simp [pureSyncStep, hfind]
      have hwf2 := wf_step ⟨hn, hb, hnd⟩ p
      rw [hstep] at hwf2
      obtain ⟨t, hsk, hflags⟩ := ih hwf2
      refine ⟨(p.player_name, n, p.is_edited) :: t, ?_, fun s hs => ?_⟩
      · show skels (pureSync rest (pureSyncStep p (rows, n))).1 = _
        rw [hstep, hsk]
        simp [skels, mkRow_skel]
      · rcases List.mem_cons.1 hs with hs | hs
        · exact ⟨p, List.mem_cons_self _ _, by rw [hs]⟩
        · obtain ⟨q, hq, hqe⟩ := hflags s hs
          exact ⟨q, List.mem_cons_of_mem _ hq, hqe⟩

/-- A name found before a sync run is found after it, at a row with the
same id and is_edited column. -/
theorem findByName_sync_stable {F : List BaseballPlayer} {rows : List Row} {n : Int}
    {nm : PyVal} {ex : Row} (h : WFdb rows n) (hfind : findByName rows nm = some ex) :
    (findByName (pureSync F (rows, n)).1 nm).map skel = some (skel ex) := by
  obtain ⟨t, hsk, _⟩ := sync_skels (F := F) h
  set R1 := (pureSync F (rows, n)).1 with hR1
  have hlen : rows.length = (skels rows).length := by simp [skels]
  have htake : skels (R1.take rows.length) = skels rows := by
    unfold skels
    rw [List.map_take]
    show (skels R1).take rows.length = skels rows
    rw [hsk, hlen, List.take_left]
  have hfd : (findByName (R1.take rows.length) nm).map skel = some (skel ex) := by
    rw [findByName_congr htake nm, hfind]
    rfl
  obtain ⟨a, ha, hask⟩ : ∃ a, findByName (R1.take rows.length) nm = some a ∧ skel a = skel ex := by
    cases hfa : findByName (R1.take rows.length) nm with
    | none => rw [hfa] at hfd; simp at hfd
    | some a => rw [hfa] at hfd; exact ⟨a, rfl, by simpa using hfd⟩
  have h2 : findByName R1 nm = some a := by
    have h3 : findByName (R1.take rows.length ++ R1.drop rows.length) nm = some a :=
      @find?_append_left Row (fun r => decide (r.player_name = nm))
        (R1.take rows.length) (R1.drop rows.length) a ha
    rwa [List.take_append_drop] at h3
  rw [h2]
  simp [hask]

theorem present_sync_stable {F : List BaseballPlayer} {rows : List Row} {n : Int}
    {nm : PyVal} (h : WFdb rows n) (hp : (findByName rows nm).isSome) :
    (findByName (pureSync F (rows, n)).1 nm).isSome := by
  cases hfind : findByName rows nm with
  | none => rw [hfind] at hp; simp at hp
  | some ex =>
    have := findByName_sync_stable (F := F) h hfind
    cases hfa : findByName (pureSync F (rows, n)).1 nm with
    | none => rw [hfa] at this; simp at this
    | some a => simp

/-- After its own merge step, a fetched player's name is present. -/
theorem present_after_step {rows : List Row} {n : Int} (h : WFdb rows n)
    (p : BaseballPlayer) :
    (findByName (pureSyncStep p (rows, n)).1 p.player_name).isSome := by
  obtain ⟨hn, hb, hnd⟩ := h
  cases hfind : findByName rows p.player_name with
  | some ex =>
    simp only [pureSyncStep, hfind]
    have hsk := replaceById_skels (findByName_mem hfind) hnd (findByName_name hfind)
      (p := p)
    have := findByName_congr hsk p.player_name
    rw [hfind] at this
    cases hfa : findByName (replaceById rows ex.id (mkRow p ex.id ex.is_edited)) p.player_name with
    | none => rw [hfa] at this; simp at this
    | some a => simp
  | none =>
    simp only [pureSyncStep, hfind]
    unfold findByName at hfind ⊢
    rw [find?_append_right hfind]
    simp [mkRow]

/-- Every fetched name is present after the sync run. -/
theorem allPresent_after_sync {F : List BaseballPlayer} {rows : List Row} {n : Int}
    (h : WFdb rows n) :
    ∀ p ∈ F, (findByName (pureSync F (rows, n)).1 p.player_name).isSome := by
  induction F generalizing rows n with
  | nil => intro p hp; simp at hp
  | cons q rest ih =>
    intro p hp
    have hwf2 := wf_step h q
    rcases List.mem_cons.1 hp with hp | hp
    · subst hp
      show (findByName (pureSync rest (pureSyncStep p (rows, n))).1 p.player_name).isSome
      cases hst : pureSyncStep p (rows, n) with
      | mk rows2 n2 =>
        rw [hst] at hwf2
        have hpres := present_after_step h p
        rw [hst] at hpres
        exact present_sync_stable hwf2 hpres
    · show (findByName (pureSync rest (pureSyncStep q (rows, n))).1 p.player_name).isSome
      cases hst : pureSyncStep q (rows, n) with
      | mk rows2 n2 =>
        rw [hst] at hwf2
        exact ih hwf2 p hp

/-- Id of the first row carrying a name, the row targeted by the sync
update path. -/
def idOfFind (rows : List Row) (nm : PyVal) : Option Int :=
  (findByName rows nm).map (fun r => r.id)

/-- Whether fetched player `p`, merged against reference table `rows0`,
writes the row with id `i`. -/
def touches (rows0 : List Row) (p : BaseballPlayer) (i : Int) : Bool :=
  decide (idOfFind rows0 p.player_name = some i)

/-- The value of a row after an update-only sync run: the last fetched
player writing it wins, keeping the row's id and is_edited column. -/
def applyLast (F : List BaseballPlayer) (rows0 : List Row) (r : Row) : Row :=
  match (F.filter (fun p => touches rows0 p r.id)).getLast? with
  | some p => mkRow p r.id r.is_edited
  | none => r

theorem idOfFind_congr {l1 l2 : List Row} (h : skels l1 = skels l2) (nm : PyVal) :
    idOfFind l1 nm = idOfFind l2 nm := by
  have hc := findByName_congr h nm
  unfold idOfFind
  cases h1 : findByName l1 nm with
  | none =>
    cases h2 : findByName l2 nm with
    | none => rfl
    | some b => rw [h1, h2] at hc; simp at hc
  | some a =>
    cases h2 : findByName l2 nm with
    | none => rw [h1, h2] at hc; simp at hc
    | some b =>
      rw [h1, h2] at hc
      simp only [Option.map_some'] at hc ⊢
      have hid : a.id = b.id := congrArg (fun s : PyVal × Int × PyVal => s.2.1) (by simpa using hc)
      simp [hid]

theorem isSome_congr {l1 l2 : List Row} (h : skels l1 = skels l2) (nm : PyVal) :
    (findByName l1 nm).isSome = (findByName l2 nm).isSome := by
  have hc := findByName_congr h nm
  cases h1 : findByName l1 nm <;> cases h2 : findByName l2 nm <;>
    rw [h1, h2] at hc <;> simp_all

theorem idOfFind_sync_stable {F : List BaseballPlayer} {rows : List Row} {n : Int}
    {nm : PyVal} {ex : Row} (h : WFdb rows n) (hfind : findByName rows nm = some ex) :
    idOfFind (pureSync F (rows, n)).1 nm = some ex.id := by
  have hst := findByName_sync_stable (F := F) h hfind
  unfold idOfFind
  cases hfa : findByName (pureSync F (rows, n)).1 nm with
  | none => rw [hfa] at hst; simp at hst
  | some a =>
    rw [hfa] at hst
    simp only [Option.map_some'] at hst ⊢
    have hid : a.id = ex.id := congrArg (fun s : PyVal × Int × PyVal => s.2.1) (by simpa using hst)
    simp [hid]

theorem touches_congr {l1 l2 : List Row} (h : skels l1 = skels l2)
    (p : BaseballPlayer) (i : Int) : touches l1 p i = touches l2 p i := by
  unfold touches
  rw [idOfFind_congr h]

theorem applyLast_congr {F : List BaseballPlayer} {l1 l2 : List Row}
    (h : skels l1 = skels l2) (r : Row) : applyLast F l1 r = applyLast F l2 r := by
  unfold applyLast
  rw [List.filter_congr (fun p _ => touches_congr h p r.id)]

theorem getLast?_cons_ne {α} (a : α) {l : List α} (h : l ≠ []) :
    (a :: l).getLast? = l.getLast? := by
  cases l with
  | nil => exact absurd rfl h
  | cons b bs => exact List.getLast?_cons_cons

theorem applyLast_eq_of_getLast {F : List BaseballPlayer} {rows0 : List Row} {r : Row}
    {q : BaseballPlayer}
    (h : (F.filter (fun p => touches rows0 p r.id)).getLast? = some q) :
    applyLast F rows0 r = mkRow q r.id r.is_edited := by
  unfold applyLast
  rw [h]

theorem applyLast_eq_self {F : List BaseballPlayer} {rows0 : List Row} {r : Row}
    (h : (F.filter (fun p => touches rows0 p r.id)).getLast? = none) :
    applyLast F rows0 r = r := by
  unfold applyLast
  rw [h]

/-- An update-only sync run (every fetched name already present)
rewrites each row to its last writer and leaves the id counter alone. -/
theorem pureSync_allPresent_eq {F : List BaseballPlayer} {rows : List Row} {n : Int}
    (hwf : WFdb rows n)
    (hall : ∀ p ∈ F, (findByName rows p.player_name).isSome) :
    pureSync F (rows, n) = (rows.map (applyLast F rows), n) := by
  induction F generalizing rows n with
  | nil =>
    have hmap : rows.map (applyLast [] rows) = rows :=
      (List.map_congr_left (fun r _ => by simp [applyLast])).trans (List.map_id rows)
    simp [pureSync, hmap]
  | cons p rest ih =>
    obtain ⟨ex, hfind⟩ := Option.isSome_iff_exists.1 (hall p (List.mem_cons_self p rest))
    have hexmem := findByName_mem hfind
    have hexname := findByName_name hfind
    have hnd := hwf.2.2
    set rows1 := replaceById rows ex.id (mkRow p ex.id ex.is_edited) with hrows1
    have hstep : pureSyncStep p (rows, n) = (rows1, n) := by
      simp [pureSyncStep, hfind, hrows1]
    have hsk1 : skels rows1 = skels rows := replaceById_skels hexmem hnd hexname
    have hwf1 : WFdb rows1 n := by
      have := wf_step hwf p
      rwa [hstep] at this
    have hall1 : ∀ q ∈ rest, (findByName rows1 q.player_name).isSome := by
      intro q hq
      rw [isSome_congr hsk1]
      exact hall q (List.mem_cons_of_mem _ hq)
    have hrun : pureSync (p :: rest) (rows, n) = pureSync rest (rows1, n) := by
      show pureSync rest (pureSyncStep p (rows, n)) = _
      rw [hstep]
    rw [hrun, ih hwf1 hall1]
    refine Prod.ext ?_ rfl
    show rows1.map (applyLast rest rows1) = rows.map (applyLast (p :: rest) rows)
    have hshift : ∀ r, applyLast rest rows1 r = applyLast rest rows r :=
      fun r => applyLast_congr hsk1 r
    rw [hrows1]
    unfold replaceById
    rw [List.map_map]
    refine List.map_congr_left (fun r hr => ?_)
    show applyLast rest rows1 (if r.id = ex.id then mkRow p ex.id ex.is_edited else r)
        = applyLast (p :: rest) rows r
    by_cases hid : r.id = ex.id
    · have hrex : r = ex := eq_of_id_eq hnd hr hexmem hid
      subst hrex
      rw [if_pos rfl]
      have htp : (fun q => touches rows q r.id) p = true := by
        show touches rows p r.id = true
        unfold touches idOfFind
        rw [hfind]
        simp
      have hfilter :
          (p :: rest).filter (fun q => touches rows q r.id)
            = p :: rest.filter (fun q => touches rows q r.id) := by
        rw [List.filter_cons, if_pos htp]
      cases hfr : rest.filter (fun q => touches rows q r.id) with
      | nil =>
        have hL : applyLast (p :: rest) rows r = mkRow p r.id r.is_edited := by
          refine applyLast_eq_of_getLast ?_
          rw [hfilter, hfr]
          rfl
        have hR : applyLast rest rows1 (mkRow p r.id r.is_edited)
            = mkRow p r.id r.is_edited := by
          rw [hshift]
          exact applyLast_eq_self
            (show (rest.filter
                (fun q => touches rows q (mkRow p r.id r.is_edited).id)).getLast? = none from
              by rw [show (mkRow p r.id r.is_edited).id = r.id from rfl, hfr]; rfl)
        rw [hR, hL]
      | cons q2 l =>
        have hne : rest.filter (fun q => touches rows q r.id) ≠ [] := by
          rw [hfr]
          exact List.cons_ne_nil q2 l
        obtain ⟨qlast, hqlast⟩ :
            ∃ qlast, (rest.filter (fun q => touches rows q r.id)).getLast? = some qlast := by
          cases hg : (rest.filter (fun q => touches rows q r.id)).getLast? with
          | none => exact absurd (List.getLast?_eq_none_iff.1 hg) hne
          | some qlast => exact ⟨qlast, rfl⟩
        have hL : applyLast (p :: rest) rows r = mkRow qlast r.id r.is_edited := by
          refine applyLast_eq_of_getLast ?_
          rw [hfilter, getLast?_cons_ne _ hne, hqlast]
        have hR : applyLast rest rows1 (mkRow p r.id r.is_edited)
            = mkRow qlast r.id r.is_edited := by
          rw [hshift]
          exact applyLast_eq_of_getLast
            (show (rest.filter
                (fun q => touches rows q (mkRow p r.id r.is_edited).id)).getLast?
                = some qlast from
              by rw [show (mkRow p r.id r.is_edited).id = r.id from rfl, hqlast])
        rw [hR, hL]
    · rw [if_neg hid]
      have htp : (fun q => touches rows q r.id) p = false := by
        show touches rows p r.id = false
        unfold touches idOfFind
        rw [hfind]
        simp only [Option.map_some', decide_eq_false_iff_not]
        intro hc
        exact hid (Option.some.inj hc).symm
      have hfilter :
          (p :: rest).filter (fun q => touches rows q r.id)
            = rest.filter (fun q => touches rows q r.id) := by
        rw [List.filter_cons, if_neg (by simp [htp])]
      rw [hshift]
      unfold applyLast
      rw [hfilter]

/-- A row nobody writes survives the run by value. -/
theorem untouched_mem {F : List BaseballPlayer} {rows : List Row} {n : Int}
    (hwf : WFdb rows n) {rT : Row} (hrT : rT ∈ rows)
    (hno : ∀ p ∈ F, touches (pureSync F (rows, n)).1 p rT.id = false) :
    rT ∈ (pureSync F (rows, n)).1 := by
  induction F generalizing rows n with
  | nil => exact hrT
  | cons p rest ih =>
    have hwf2 := wf_step hwf p
    cases hfind : findByName rows p.player_name with
    | some ex =>
      set rows1 := replaceById rows ex.id (mkRow p ex.id ex.is_edited) with hrows1
      have hstep : pureSyncStep p (rows, n) = (rows1, n) := by
        simp [pureSyncStep, hfind, hrows1]
      rw [hstep] at hwf2
      have hrun : pureSync (p :: rest) (rows, n) = pureSync rest (rows1, n) := by
        show pureSync rest (pureSyncStep p (rows, n)) = _
        rw [hstep]
      have hid0 : idOfFind (pureSync (p :: rest) (rows, n)).1 p.player_name = some ex.id :=
        idOfFind_sync_stable hwf hfind
      have hnotr : ex.id ≠ rT.id := by
        have := hno p (List.mem_cons_self p rest)
        unfold touches at this
        rw [hid0] at this
        simpa using this
      have hrT1 : rT ∈ rows1 := by
        rw [hrows1]
        unfold replaceById
        refine List.mem_map.2 ⟨rT, hrT, ?_⟩
        show (if rT.id = ex.id then mkRow p ex.id ex.is_edited else rT) = rT
        rw [if_neg (show ¬ rT.id = ex.id from fun hc => hnotr hc.symm)]
      rw [hrun]
      refine ih hwf2 hrT1 (fun q hq => ?_)
      have := hno q (List.mem_cons_of_mem _ hq)
      rwa [hrun] at this
    | none =>
      have hstep : pureSyncStep p (rows, n) = (rows ++ [mkRow p n p.is_edited], n + 1) := by
        simp [pureSyncStep, hfind]
      rw [hstep] at hwf2
      have hrun : pureSync (p :: rest) (rows, n)
          = pureSync rest (rows ++ [mkRow p n p.is_edited], n + 1) := by
        show pureSync rest (pureSyncStep p (rows, n)) = _
        rw [hstep]
      rw [hrun]
      refine ih hwf2 (List.mem_append_left _ hrT) (fun q hq => ?_)
      have := hno q (List.mem_cons_of_mem _ hq)
      rwa [hrun] at this

theorem filter_nil_forall {α} {p : α → Bool} {l : List α} (h : l.filter p = []) :
    ∀ a ∈ l, p a = false := by
  intro a ha
  by_cases hpa : p a
  · exact absurd (List.mem_filter.2 ⟨ha, hpa⟩) (by simp [h])
  · simpa using hpa

/-- After a sync run, every row that was written at all holds exactly
the statistics of the last fetched player that wrote it, with its own id
and is_edited column. -/
theorem sync_last_write {F : List BaseballPlayer} {rows : List Row} {n : Int}
    (hwf : WFdb rows n) :
    ∀ r ∈ (pureSync F (rows, n)).1, ∀ q,
      ((F.filter (fun p => touches (pureSync F (rows, n)).1 p r.id)).getLast? = some q) →
      r = mkRow q r.id r.is_edited := by
  induction F generalizing rows n with
  | nil =>
    intro r hr q hq
    simp at hq
  | cons p rest ih =>
    intro r hr q hq
    cases hfind : findByName rows p.player_name with
    | some ex =>
      set rows2 := replaceById rows ex.id (mkRow p ex.id ex.is_edited) with hrows2
      have hstep : pureSyncStep p (rows, n) = (rows2, n) := by
        simp [pureSyncStep, hfind, hrows2]
      have hwf2 : WFdb rows2 n := by
        have := wf_step hwf p
        rwa [hstep] at this
      have hrun : pureSync (p :: rest) (rows, n) = pureSync rest (rows2, n) := by
        show pureSync rest (pureSyncStep p (rows, n)) = _
        rw [hstep]
      rw [hrun] at hr hq
      by_cases hpr : touches (pureSync rest (rows2, n)).1 p r.id
      · rw [show ((p :: rest).filter
            (fun p2 => touches (pureSync rest (rows2, n)).1 p2 r.id))
            = p :: (rest.filter (fun p2 => touches (pureSync rest (rows2, n)).1 p2 r.id)) from
          by rw [List.filter_cons, if_pos hpr]] at hq
        cases hfe : rest.filter (fun p2 => touches (pureSync rest (rows2, n)).1 p2 r.id) with
        | cons q2 l =>
          rw [hfe, getLast?_cons_ne _ (List.cons_ne_nil q2 l)] at hq
          rw [← hfe] at hq
          exact ih hwf2 r hr q hq
        | nil =>
          rw [hfe] at hq
          have hqp : q = p := by
            have : (p :: ([] : List BaseballPlayer)).getLast? = some p := rfl
            rw [this] at hq
            exact (Option.some.inj hq).symm
          rw [hqp]
          have hsk2 : skels rows2 = skels rows :=
            replaceById_skels (findByName_mem hfind) hwf.2.2 (findByName_name hfind)
          obtain ⟨ex2, hfind2, hex2⟩ :
              ∃ ex2, findByName rows2 p.player_name = some ex2 ∧ ex2.id = ex.id := by
            have hc := findByName_congr hsk2 p.player_name
            rw [hfind] at hc
            cases hf2 : findByName rows2 p.player_name with
            | none => rw [hf2] at hc; simp at hc
            | some a =>
              rw [hf2] at hc
              simp only [Option.map_some'] at hc
              exact ⟨a, rfl, congrArg (fun s : PyVal × Int × PyVal => s.2.1)
                (by simpa using hc)⟩
          have hid0 : idOfFind (pureSync rest (rows2, n)).1 p.player_name = some ex.id := by
            have := idOfFind_sync_stable (F := rest) hwf2 hfind2
            rwa [hex2] at this
          have hrid : r.id = ex.id := by
            unfold touches at hpr
            rw [hid0] at hpr
            have := of_decide_eq_true hpr
            exact (Option.some.inj this).symm
          have hrT : mkRow p ex.id ex.is_edited ∈ rows2 := by
            rw [hrows2]
            unfold replaceById
            exact List.mem_map.2 ⟨ex, findByName_mem hfind, by rw [if_pos rfl]⟩
          have hno : ∀ p2 ∈ rest,
              touches (pureSync rest (rows2, n)).1 p2 (mkRow p ex.id ex.is_edited).id = false := by
            intro p2 hp2
            have := filter_nil_forall hfe p2 hp2
            simpa [hrid] using this
          have hmem : mkRow p ex.id ex.is_edited ∈ (pureSync rest (rows2, n)).1 :=
            untouched_mem hwf2 hrT hno
          have hnd1 : (idsOf (pureSync rest (rows2, n)).1).Nodup := (wf_sync hwf2).2.2
          have hreq : r = mkRow p ex.id ex.is_edited :=
            eq_of_id_eq hnd1 hr hmem (by simpa using hrid)
          rw [hreq]
          rfl
      · rw [show ((p :: rest).filter
            (fun p2 => touches (pureSync rest (rows2, n)).1 p2 r.id))
            = rest.filter (fun p2 => touches (pureSync rest (rows2, n)).1 p2 r.id) from
          by rw [List.filter_cons, if_neg (by simpa using hpr)]] at hq
        exact ih hwf2 r hr q hq
    | none =>
      set rows2 := rows ++ [mkRow p n p.is_edited] with hrows2
      have hstep : pureSyncStep p (rows, n) = (rows2, n + 1) := by
        simp [pureSyncStep, hfind, hrows2]
      have hwf2 : WFdb rows2 (n + 1) := by
        have := wf_step hwf p
        rwa [hstep] at this
      have hrun : pureSync (p :: rest) (rows, n) = pureSync rest (rows2, n + 1) := by
        show pureSync rest (pureSyncStep p (rows, n)) = _
        rw [hstep]
      rw [hrun] at hr hq
      by_cases hpr : touches (pureSync rest (rows2, n + 1)).1 p r.id
      · rw [show ((p :: rest).filter
            (fun p2 => touches (pureSync rest (rows2, n + 1)).1 p2 r.id))
            = p :: (rest.filter (fun p2 => touches (pureSync rest (rows2, n + 1)).1 p2 r.id)) from
          by rw [List.filter_cons, if_pos hpr]] at hq
        cases hfe : rest.filter (fun p2 => touches (pureSync rest (rows2, n + 1)).1 p2 r.id) with
        | cons q2 l =>
          rw [hfe, getLast?_cons_ne _ (List.cons_ne_nil q2 l)] at hq
          rw [← hfe] at hq
          exact ih hwf2 r hr q hq
        | nil =>
          rw [hfe] at hq
          have hqp : q = p := by
            have : (p :: ([] : List BaseballPlayer)).getLast? = some p := rfl
            rw [this] at hq
            exact (Option.some.inj hq).symm
          rw [hqp]
          have hfind2 : findByName rows2 p.player_name = some (mkRow p n p.is_edited) := by
            rw [hrows2]
            unfold findByName at hfind ⊢
            rw [find?_append_right hfind]
            simp [mkRow]
          have hid0 : idOfFind (pureSync rest (rows2, n + 1)).1 p.player_name = some n :=
            idOfFind_sync_stable (F := rest) hwf2 hfind2
          have hrid : r.id = n := by
            unfold touches at hpr
            rw [hid0] at hpr
            have := of_decide_eq_true hpr
            exact (Option.some.inj this).symm
          have hrT : mkRow p n p.is_edited ∈ rows2 := by
            rw [hrows2]
            exact List.mem_append_right _ (List.mem_singleton.2 rfl)
          have hno : ∀ p2 ∈ rest,
              touches (pureSync rest (rows2, n + 1)).1 p2 (mkRow p n p.is_edited).id = false := by
            intro p2 hp2
            have := filter_nil_forall hfe p2 hp2
            simpa [hrid] using this
          have hmem : mkRow p n p.is_edited ∈ (pureSync rest (rows2, n + 1)).1 :=
            untouched_mem hwf2 hrT hno
          have hnd1 : (idsOf (pureSync rest (rows2, n + 1)).1).Nodup := (wf_sync hwf2).2.2
          have hreq : r = mkRow p n p.is_edited :=
            eq_of_id_eq hnd1 hr hmem (by simpa using hrid)
          rw [hreq]
          rfl
      · rw [show ((p :: rest).filter
            (fun p2 => touches (pureSync rest (rows2, n + 1)).1 p2 r.id))
            = rest.filter (fun p2 => touches (pureSync rest (rows2, n + 1)).1 p2 r.id) from
          by rw [List.filter_cons, if_neg (by simpa using hpr)]] at hq
        exact ih hwf2 r hr q hq

/-- Idempotence of the pure sync loop. -/
theorem pureSync_idem {F : List BaseballPlayer} {rows : List Row} {n : Int}
    (hwf : WFdb rows n) :
    pureSync F (pureSync F (rows, n)) = pureSync F (rows, n) := by
  have hwf1 := wf_sync (F := F) hwf
  have hall := allPresent_after_sync (F := F) hwf
  have hlast := sync_last_write (F := F) hwf
  cases hS1 : pureSync F (rows, n) with
  | mk R1 n1 =>
    rw [hS1] at hwf1 hall hlast
    have hwf2 : WFdb R1 n1 := hwf1
    have hall2 : ∀ p ∈ F, (findByName R1 p.player_name).isSome := hall
    rw [pureSync_allPresent_eq hwf2 hall2]
    refine Prod.ext ?_ rfl
    show R1.map (applyLast F R1) = R1
    have hmap : ∀ r ∈ R1, applyLast F R1 r = r := by
      intro r hr
      cases hg : (F.filter (fun p => touches R1 p r.id)).getLast? with
      | none => exact applyLast_eq_self hg
      | some q =>
        have hv := hlast r hr q hg
        rw [applyLast_eq_of_getLast hg, ← hv]
    exact (List.map_congr_left hmap).trans (List.map_id R1)

theorem updatePlayerInDb_some {p : BaseballPlayer} {i : Int} (hi : ¬ i = 0) (db : DB)
    (hp : p.id = some i) :
    updatePlayerInDb p db = .ok (db.rows.any (fun r => decide (r.id = i)),
      { db with rows := replaceById db.rows i (mkRow p i p.is_edited) }) := by
  simp [updatePlayerInDb, hp, hi]

/-- Under the SERIAL-key invariant, the effectful sync loop never raises
and computes exactly the pure sync loop; the descriptions table is
untouched. -/
theorem syncCore_eq_pure {F : List BaseballPlayer} {db : DB}
    (h : WFdb db.rows db.nextId) :
    syncPlayersCore F db =
      .ok { rows := (pureSync F (db.rows, db.nextId)).1,
            nextId := (pureSync F (db.rows, db.nextId)).2,
            descriptions := db.descriptions } := by
  induction F generalizing db with
  | nil =>
    cases db
    simp [syncPlayersCore, pureSync]
  | cons p rest ih =>
    cases hfind : findByName db.rows p.player_name with
    | some ex =>
      have hexmem := findByName_mem hfind
      have hid : ¬ (ex.id = 0) := by
        have := h.2.1 ex hexmem
        omega
      have hupd := updatePlayerInDb_some hid db
        (show ({ p with id := some ex.id, is_edited := ex.is_edited } : BaseballPlayer).id
          = some ex.id from rfl)
      set db2 : DB := { db with rows := replaceById db.rows ex.id (mkRow p ex.id ex.is_edited) }
        with hdb2
      have hnext : syncPlayersCore (p :: rest) db = syncPlayersCore rest db2 := by
        show (match findByName db.rows p.player_name with
          | some existing =>
            match updatePlayerInDb
                { p with id := some existing.id, is_edited := existing.is_edited } db with
            | .ok (_, dbx) => syncPlayersCore rest dbx
            | .error e => .error e
          | none => syncPlayersCore rest (savePlayerToDb p db).2) = _
        simp only [hfind, hupd]
        rfl
      have hstep : pureSyncStep p (db.rows, db.nextId) = (db2.rows, db2.nextId) := by
        simp [pureSyncStep, hfind, hdb2]
      have hwf2 : WFdb db2.rows db2.nextId := by
        have := wf_step h p
        rwa [hstep] at this
      have hpure : pureSync (p :: rest) (db.rows, db.nextId)
          = pureSync rest (db2.rows, db2.nextId) := by
        show pureSync rest (pureSyncStep p (db.rows, db.nextId)) = _
        rw [hstep]
      rw [hnext, hpure, ih hwf2]
    | none =>
      set db2 : DB :=
        { db with
          rows := db.rows ++ [mkRow p db.nextId p.is_edited],
          nextId := db.nextId + 1 } with hdb2
      have hnext : syncPlayersCore (p :: rest) db = syncPlayersCore rest db2 := by
        show (match findByName db.rows p.player_name with
          | some existing =>
            match updatePlayerInDb
                { p with id := some existing.id, is_edited := existing.is_edited } db with
            | .ok (_, dbx) => syncPlayersCore rest dbx
            | .error e => .error e
          | none => syncPlayersCore rest (savePlayerToDb p db).2) = _
        simp only [hfind]
        rfl
      have hstep : pureSyncStep p (db.rows, db.nextId) = (db2.rows, db2.nextId) := by
        simp [pureSyncStep, hfind, hdb2]
      have hwf2 : WFdb db2.rows db2.nextId := by
        have := wf_step h p
        rwa [hstep] at this
      have hpure : pureSync (p :: rest) (db.rows, db.nextId)
          = pureSync rest (db2.rows, db2.nextId) := by
        show pureSync rest (pureSyncStep p (db.rows, db.nextId)) = _
        rw [hstep]
      rw [hnext, hpure, ih hwf2]

/-- The end-to-end example payload of the specification (Babe Ruth). -/
def ruthRaw : List (String × PyVal) :=
  [("Player name", .str "Babe Ruth"), ("position", .str "RF"), ("Games", .int 2503),
   ("At-bat", .int 8399), ("Runs", .int 2174), ("Hits", .int 2873),
   ("Double (2B)", .int 506), ("third baseman", .int 136), ("home run", .int 714),
   ("run batted in", .int 2213), ("a walk", .int 2062), ("Strikeouts", .int 1330),
   ("stolen base", .int 123), ("Caught stealing", .int 117), ("AVG", .str "0.342"),
   ("On-base Percentage", .str "0.474"), ("Slugging Percentage", .str "0.690"),
   ("On-base Plus Slugging", .str "1.164")]



/-- The record `from_raw` produces for the example payload. -/
def ruthPlayer : BaseballPlayer :=
  { id := none, player_name := .str "Babe Ruth", position := .str "RF",
    games := .int 2503, at_bats := .int 8399, runs := .int 2174, hits := .int 2873,
    doubles := .int 506, triples := .int 136, home_runs := .int 714,
    rbis := .int 2213, walks := .int 2062, strikeouts := .int 1330,
    stolen_bases := .int 123, caught_stealing := .int 117,
    batting_average := .float (mkRat 342 1000), on_base_percentage := .float (mkRat 474 1000),
    slugging_percentage := .float (mkRat 690 1000), ops := .float (mkRat 1164 1000),
    is_edited := .bool false }

def dbEmpty : DB := {}

/-- The store after one sync of the example payload into empty storage. -/
def dbRuth1 : DB :=
  { rows := [mkRow ruthPlayer 1 (.bool false)], nextId := 2, descriptions := [] }

/-- The same store after a local edit set the is_edited flag. -/
def dbRuthEdited : DB :=
  { rows := [mkRow ruthPlayer 1 (.bool true)], nextId := 2, descriptions := [] }

/-- The update-coercion request body of the specification. -/
def nullUpdateData : List (String × PyVal) :=
  [("games", .none_), ("batting_average", .none_), ("is_edited", .none_)]

/-- The example payload with the triples key removed. -/
def ruthRawMissingTriples : List (String × PyVal) :=
  ruthRaw.filter (fun kv => kv.1 ≠ "third baseman")

/-- The example payload with a non-numeric counting statistic. -/
def badGamesRaw : List (String × PyVal) :=
  ruthRaw.map (fun kv => if kv.1 = "Games" then ("Games", PyVal.str "not a number") else kv)

/-- The example payload with a non-numeric rate statistic. -/
def badAvgRaw : List (String × PyVal) :=
  ruthRaw.map (fun kv => if kv.1 = "AVG" then ("AVG", PyVal.str "not a number") else kv)

/-- A fixed text-generation oracle for concrete runs. -/
def genFixed : BaseballPlayer → String := fun _ => "A legend of the game."

/-- A store holding the example player under id 7 with an empty cached
description text. -/
def dbDescEmptyText : DB :=
  { rows := [mkRow ruthPlayer 7 (.bool false)], nextId := 8, descriptions := [(7, "")] }

/-- The same store with no description entry at all. -/
def dbDescNone : DB :=
  { rows := [mkRow ruthPlayer 7 (.bool false)], nextId := 8, descriptions := [] }

theorem except_bind_ok {ε α β} {x : Except ε α} {f : α → Except ε β} {b : β}
    (h : (x >>= f) = .ok b) : ∃ a, x = .ok a ∧ f a = .ok b := by
  cases x with
  | error e => simp [Bind.bind, Except.bind] at h
  | ok a => exact ⟨a, rfl, by simpa [Bind.bind, Except.bind] using h⟩

theorem except_bind_error {ε α β} {x : Except ε α} {f : α → Except ε β} {e : ε}
    (h : (x >>= f) = .error e) : x = .error e ∨ ∃ a, x = .ok a ∧ f a = .error e := by
  cases x with
  | error e2 =>
    left
    have h2 : e2 = e := by simpa [Bind.bind, Except.bind] using h
    rw [h2]
  | ok a => exact Or.inr ⟨a, rfl, by simpa [Bind.bind, Except.bind] using h⟩

theorem dictGet_ok {raw : List (String × PyVal)} {k : String} {v : PyVal}
    (h : dictGet raw k = .ok v) : raw.lookup k = some v := by
  unfold dictGet at h
  cases hl : raw.lookup k with
  | none => rw [hl] at h; cases h
  | some w => rw [hl] at h; exact congrArg some (Except.ok.inj h)

theorem dictGet_error {raw : List (String × PyVal)} {k : String} {e : PyErr}
    (h : dictGet raw k = .error e) : e = .keyError k ∧ raw.lookup k = none := by
  unfold dictGet at h
  cases hl : raw.lookup k with
  | none => rw [hl] at h; exact ⟨(Except.error.inj h).symm, rfl⟩
  | some w => rw [hl] at h; cases h

theorem pyFloat_not_keyError {v : PyVal} {k : String} :
    pyFloat v ≠ .error (.keyError k) := by
  cases v with
  | str s =>
    simp only [pyFloat]
    cases hp : parseDecimal s <;> simp
  | _ => simp [pyFloat]

/-- Claim C5: `from_raw` maps the fielding-position key "third baseman"
onto the triples count and the transaction key "a walk" onto the walk
count, coerces the four rate fields through `float()`, and on the
end-to-end example payload yields a record with triples = 136,
walks = 2062 and is_edited = false. -/
theorem claim_C5_from_raw_mapping :
    (∀ raw p, fromRaw raw = .ok p →
      raw.lookup "third baseman" = some p.triples ∧
      raw.lookup "a walk" = some p.walks ∧
      (∃ v q, raw.lookup "AVG" = some v ∧ pyFloat v = .ok q ∧
        p.batting_average = PyVal.float q) ∧
      (∃ v q, raw.lookup "On-base Percentage" = some v ∧ pyFloat v = .ok q ∧
        p.on_base_percentage = PyVal.float q) ∧
      (∃ v q, raw.lookup "Slugging Percentage" = some v ∧ pyFloat v = .ok q ∧
        p.slugging_percentage = PyVal.float q) ∧
      (∃ v q, raw.lookup "On-base Plus Slugging" = some v ∧ pyFloat v = .ok q ∧
        p.ops = PyVal.float q)) ∧
    (fromRaw ruthRaw = .ok ruthPlayer ∧ ruthPlayer.triples = PyVal.int 136 ∧
      ruthPlayer.walks = PyVal.int 2062 ∧ ruthPlayer.is_edited = PyVal.bool false) := by
  constructor
  · intro raw p h
    unfold fromRaw at h
    obtain ⟨pn, hpn, h⟩ := except_bind_ok h
    obtain ⟨pos, hpos, h⟩ := except_bind_ok h
    obtain ⟨g, hg, h⟩ := except_bind_ok h
    obtain ⟨ab, hab, h⟩ := except_bind_ok h
    obtain ⟨ru, hru, h⟩ := except_bind_ok h
    obtain ⟨hi, hhi, h⟩ := except_bind_ok h
    obtain ⟨dbl, hdbl, h⟩ := except_bind_ok h
    obtain ⟨tr, htr, h⟩ := except_bind_ok h
    obtain ⟨hr, hhr, h⟩ := except_bind_ok h
    obtain ⟨rbi, hrbi, h⟩ := except_bind_ok h
    obtain ⟨wk, hwk, h⟩ := except_bind_ok h
    obtain ⟨so, hso, h⟩ := except_bind_ok h
    obtain ⟨sb, hsb, h⟩ := except_bind_ok h
    obtain ⟨cs, hcs, h⟩ := except_bind_ok h
    obtain ⟨avgV, havgV, h⟩ := except_bind_ok h
    obtain ⟨avg, havg, h⟩ := except_bind_ok h
    obtain ⟨obpV, hobpV, h⟩ := except_bind_ok h
    obtain ⟨obp, hobp, h⟩ := except_bind_ok h
    obtain ⟨slgV, hslgV, h⟩ := except_bind_ok h
    obtain ⟨slg, hslg, h⟩ := except_bind_ok h
    obtain ⟨opsV, hopsV, h⟩ := except_bind_ok h
    obtain ⟨opsQ, hopsQ, h⟩ := except_bind_ok h
    have hp := Except.ok.inj h
    subst hp
    exact ⟨dictGet_ok htr, dictGet_ok hwk,
      ⟨avgV, avg, dictGet_ok havgV, havg, rfl⟩,
      ⟨obpV, obp, dictGet_ok hobpV, hobp, rfl⟩,
      ⟨slgV, slg, dictGet_ok hslgV, hslg, rfl⟩,
      ⟨opsV, opsQ, dictGet_ok hopsV, hopsQ, rfl⟩⟩
  · exact ⟨by decide, by decide, by decide, by decide⟩

/-- Witness for C5: the mapping facts instantiated at the example
payload. -/
theorem claim_C5_witness :
    ruthRaw.lookup "third baseman" = some ruthPlayer.triples ∧
    ruthRaw.lookup "a walk" = some ruthPlayer.walks ∧
    (∃ v q, ruthRaw.lookup "AVG" = some v ∧ pyFloat v = .ok q ∧
      ruthPlayer.batting_average = PyVal.float q) ∧
    (∃ v q, ruthRaw.lookup "On-base Percentage" = some v ∧ pyFloat v = .ok q ∧
      ruthPlayer.on_base_percentage = PyVal.float q) ∧
    (∃ v q, ruthRaw.lookup "Slugging Percentage" = some v ∧ pyFloat v = .ok q ∧
      ruthPlayer.slugging_percentage = PyVal.float q) ∧
    (∃ v q, ruthRaw.lookup "On-base Plus Slugging" = some v ∧ pyFloat v = .ok q ∧
      ruthPlayer.ops = PyVal.float q) :=
  claim_C5_from_raw_mapping.1 ruthRaw ruthPlayer (by decide)

/-- Claim C6 counterexample: a payload with every required key present
but a non-numeric counting-statistic value ("Games": "not a number") is
accepted by the parser with no error at all — the counting statistics
are assigned without shape checking — so "parse_external fails on every
non-numeric stat value" is false. -/
theorem claim_C6_counterexample :
    (∃ p, fromRaw badGamesRaw = .ok p ∧ p.games = PyVal.str "not a number") ∧
    (parsePlayers [badGamesRaw]).isOk = true := by
  constructor
  · exact ⟨_, rfl, rfl⟩
  · decide

/-- Whenever `from_raw` raises a KeyError, the named key is genuinely
absent from the payload (every preceding read succeeded). -/
theorem fromRaw_keyError_lookup :
    ∀ raw k, fromRaw raw = .error (.keyError k) → raw.lookup k = none := by
  intro raw k h
  unfold fromRaw at h
  rcases except_bind_error h with h | ⟨pn, hpn, h⟩
  · obtain ⟨hk, hnone⟩ := dictGet_error h
    rw [PyErr.keyError.inj hk]
    exact hnone
  rcases except_bind_error h with h | ⟨pos, hpos, h⟩
  · obtain ⟨hk, hnone⟩ := dictGet_error h
    rw [PyErr.keyError.inj hk]
    exact hnone
  rcases except_bind_error h with h | ⟨g, hg, h⟩
  · obtain ⟨hk, hnone⟩ := dictGet_error h
    rw [PyErr.keyError.inj hk]
    exact hnone
  rcases except_bind_error h with h | ⟨ab, hab, h⟩
  · obtain ⟨hk, hnone⟩ := dictGet_error h
    rw [PyErr.keyError.inj hk]
    exact hnone
  rcases except_bind_error h with h | ⟨ru, hru, h⟩
  · obtain ⟨hk, hnone⟩ := dictGet_error h
    rw [PyErr.keyError.inj hk]
    exact hnone
  rcases except_bind_error h with h | ⟨hi, hhi, h⟩
  · obtain ⟨hk, hnone⟩ := dictGet_error h
    rw [PyErr.keyError.inj hk]
    exact hnone
  rcases except_bind_error h with h | ⟨dbl, hdbl, h⟩
  · obtain ⟨hk, hnone⟩ := dictGet_error h
    rw [PyErr.keyError.inj hk]
    exact hnone
  rcases except_bind_error h with h | ⟨tr, htr, h⟩
  · obtain ⟨hk, hnone⟩ := dictGet_error h
    rw [PyErr.keyError.inj hk]
    exact hnone
  rcases except_bind_error h with h | ⟨hr, hhr, h⟩
  · obtain ⟨hk, hnone⟩ := dictGet_error h
    rw [PyErr.keyError.inj hk]
    exact hnone
  rcases except_bind_error h with h | ⟨rbi, hrbi, h⟩
  · obtain ⟨hk, hnone⟩ := dictGet_error h
    rw [PyErr.keyError.inj hk]
    exact hnone
  rcases except_bind_error h with h | ⟨wk, hwk, h⟩
  · obtain ⟨hk, hnone⟩ := dictGet_error h
    rw [PyErr.keyError.inj hk]
    exact hnone
  rcases except_bind_error h with h | ⟨so, hso, h⟩
  · obtain ⟨hk, hnone⟩ := dictGet_error h
    rw [PyErr.keyError.inj hk]
    exact hnone
  rcases except_bind_error h with h | ⟨sb, hsb, h⟩
  · obtain ⟨hk, hnone⟩ := dictGet_error h
    rw [PyErr.keyError.inj hk]
    exact hnone
  rcases except_bind_error h with h | ⟨cs, hcs, h⟩
  · obtain ⟨hk, hnone⟩ := dictGet_error h
    rw [PyErr.keyError.inj hk]
    exact hnone
  rcases except_bind_error h with h | ⟨avgV, havgV, h⟩
  · obtain ⟨hk, hnone⟩ := dictGet_error h
    rw [PyErr.keyError.inj hk]
    exact hnone
  rcases except_bind_error h with h | ⟨avg, havg, h⟩
  · exact absurd h pyFloat_not_keyError
  rcases except_bind_error h with h | ⟨obpV, hobpV, h⟩
  · obtain ⟨hk, hnone⟩ := dictGet_error h
    rw [PyErr.keyError.inj hk]
    exact hnone
  rcases except_bind_error h with h | ⟨obp, hobp, h⟩
  · exact absurd h pyFloat_not_keyError
  rcases except_bind_error h with h | ⟨slgV, hslgV, h⟩
  · obtain ⟨hk, hnone⟩ := dictGet_error h
    rw [PyErr.keyError.inj hk]
    exact hnone
  rcases except_bind_error h with h | ⟨slg, hslg, h⟩
  · exact absurd h pyFloat_not_keyError
  rcases except_bind_error h with h | ⟨opsV, hopsV, h⟩
  · obtain ⟨hk, hnone⟩ := dictGet_error h
    rw [PyErr.keyError.inj hk]
    exact hnone
  rcases except_bind_error h with h | ⟨opsQ, hopsQ, h⟩
  · exact absurd h pyFloat_not_keyError
  exact Except.noConfusion h

/-- The fetch loop wraps a KeyError from `from_raw` into the ValueError
whose message names that key. -/
theorem parsePlayers_keyError {raw : List (String × PyVal)}
    {rest : List (List (String × PyVal))} {k : String}
    (h : fromRaw raw = .error (.keyError k)) :
    parsePlayers (raw :: rest) =
      .error (.valueError ("Invalid player data structure: " ++ k)) := by
  show (match fromRaw raw with
    | .ok p => (parsePlayers rest).map (fun l => p :: l)
    | .error e => .error (wrapParseErr e)) = _
  rw [h]
  rfl

/-- The example payload with the On-base Percentage key removed and a
non-numeric AVG: the AVG value is read and coerced before the missing
key would be reached. -/
def obpMissingBadAvgRaw : List (String × PyVal) :=
  (ruthRaw.filter (fun kv => kv.1 ≠ "On-base Percentage")).map
    (fun kv => if kv.1 = "AVG" then ("AVG", PyVal.str "x") else kv)

/-- Claim C6 amended: parse_external fails on the first offending field
in the source's read order.  Whenever from_raw raises a KeyError, the
fetch loop reports a MalformedRecord ValueError naming that key and the
key is genuinely absent (concretely, the payload missing "third
baseman" fails naming it); but a non-numeric rate value read earlier
fails first, with a ValueError naming the offending value — even when a
later required key is also missing — and a payload whose only defect is
a non-numeric counting-statistic value does not fail at all (see the
counterexample). -/
theorem claim_C6_amended :
    (∀ raw rest k, fromRaw raw = .error (.keyError k) →
      parsePlayers (raw :: rest) =
        .error (.valueError ("Invalid player data structure: " ++ k)) ∧
      raw.lookup k = none) ∧
    (fromRaw ruthRawMissingTriples = .error (.keyError "third baseman") ∧
      parsePlayers [ruthRawMissingTriples] =
        .error (.valueError "Invalid player data structure: third baseman")) ∧
    (parsePlayers [badAvgRaw] =
      .error (.valueError "could not convert string to float: not a number")) ∧
    (parsePlayers [obpMissingBadAvgRaw] =
      .error (.valueError "could not convert string to float: x")) := by
  refine ⟨?_, ⟨by decide, by decide⟩, by decide, by decide⟩
  intro raw rest k h
  exact ⟨parsePlayers_keyError h, fromRaw_keyError_lookup raw k h⟩

/-- Witness for C6 amended: the general key-naming fact instantiated at
the concrete truncated payload. -/
theorem claim_C6_witness :
    parsePlayers [ruthRawMissingTriples] =
      .error (.valueError ("Invalid player data structure: " ++ "third baseman")) ∧
    ruthRawMissingTriples.lookup "third baseman" = none :=
  claim_C6_amended.1 ruthRawMissingTriples [] "third baseman" (by decide)

/-- Claim C9: `update_player_in_db` guards with Python truthiness
(`if not player.id`), so a record with id None and a record with id 0
are rejected identically, before any statement is issued. -/
theorem claim_C9_update_rejects_zero_id (p : BaseballPlayer) (db : DB)
    (h : p.id = none ∨ p.id = some 0) :
    updatePlayerInDb p db = .error (.valueError "Player ID is required for update") := by
  rcases h with h | h <;> simp [updatePlayerInDb, h]

/-- Witness for C9: the example record with identity 0 is rejected. -/
theorem claim_C9_witness :
    updatePlayerInDb { ruthPlayer with id := some 0 } dbRuth1 =
      .error (.valueError "Player ID is required for update") :=
  claim_C9_update_rejects_zero_id _ _ (Or.inr rfl)

theorem find_in_upsert (l : List (Int × String)) (pid : Int) (d : String)
    (h : l.any (fun e => decide (e.1 = pid)) = true) :
    (l.map (fun e => if e.1 = pid then (pid, d) else e)).find? (fun e => decide (e.1 = pid))
      = some (pid, d) := by
  induction l with
  | nil => simp at h
  | cons e es ih =>
    by_cases he : e.1 = pid
    · simp only [List.map_cons, if_pos he]
      rw [List.find?_cons_of_pos _ (by simp)]
    · simp only [List.map_cons, if_neg he]
      rw [List.find?_cons_of_neg _ (by simpa using he)]
      refine ih ?_
      have := List.any_eq_true.1 h
      rcases this with ⟨x, hx, hpx⟩
      rcases List.mem_cons.1 hx with hx | hx
      · exact absurd (of_decide_eq_true (hx ▸ hpx)) he
      · exact List.any_eq_true.2 ⟨x, hx, hpx⟩

/-- After `save_player_description`, the lookup for that player id
returns the newly stored text: the upsert keyed on player_id. -/
theorem getDesc_after_save (pid : Int) (d : String) (db : DB) :
    getPlayerDescription pid (savePlayerDescription pid d db) = some d := by
  unfold getPlayerDescription savePlayerDescription
  by_cases hex : db.descriptions.any (fun e => decide (e.1 = pid)) = true
  · rw [if_pos hex, find_in_upsert _ _ _ hex]
  · rw [if_neg hex]
    have hnone : db.descriptions.find? (fun e => decide (e.1 = pid)) = none := by
      rw [List.find?_eq_none]
      intro x hx
      intro hpx
      exact hex (List.any_eq_true.2 ⟨x, hx, hpx⟩)
    rw [find?_append_right hnone]
    rw [List.find?_cons_of_pos _ (by simp)]

/-- Claim C10 (code bug): the truthiness test does treat an empty
cached text as a miss — the cache-hit shortcut applies only to
non-empty cached text and the empty string is never returned — but the
promised regeneration never happens: the miss path calls
get_player_by_id, which raises NameError (RealDictCursor is never
imported in utils.py), so the call fails with zero generation
invocations and the stored entry is not overwritten. -/
theorem claim_C10_empty_cache_is_miss (gen : BaseballPlayer → String)
    (pid : Int) (db : DB) :
    (getPlayerDescription pid db = some "" →
      getOrGenerateDesc gen pid db =
        (0, .error (.nameError "name 'RealDictCursor' is not defined"))) ∧
    (∀ t, getPlayerDescription pid db = some t → t ≠ "" →
      getOrGenerateDesc gen pid db = (0, .ok (t, db))) := by
  constructor
  · intro hc
    unfold getOrGenerateDesc
    rw [hc]
    rw [if_neg (by simp [truthyStr])]
    rfl
  · intro t hc hne
    unfold getOrGenerateDesc
    rw [hc]
    rw [if_pos (by simp [truthyStr, hne])]
    rfl

/-- A store holding the example player under id 7 with a non-empty
cached description. -/
def dbDescFull : DB :=
  { rows := [mkRow ruthPlayer 7 (.bool false)], nextId := 8,
    descriptions := [(7, "A legend of the game.")] }

/-- Witness for C10: the empty entry at id 7 yields the NameError with
zero generations; a non-empty entry is returned as a plain hit. -/
theorem claim_C10_witness :
    getOrGenerateDesc genFixed 7 dbDescEmptyText =
      (0, .error (.nameError "name 'RealDictCursor' is not defined")) ∧
    getOrGenerateDesc genFixed 7 dbDescFull =
      (0, .ok ("A legend of the game.", dbDescFull)) :=
  ⟨(claim_C10_empty_cache_is_miss genFixed 7 dbDescEmptyText).1 (by decide),
   (claim_C10_empty_cache_is_miss genFixed 7 dbDescFull).2 "A legend of the game."
     (by decide) (by decide)⟩

/-- Claim C8 counterexample: with no cache entry for id 7, the claim
requires exactly one generation call, a persisted entry and the text
returned; the code instead fails before generation — get_player_by_id
raises NameError — with zero generation calls and nothing persisted. -/
theorem claim_C8_counterexample :
    getPlayerDescription 7 dbDescNone = none ∧
    getOrGenerateDesc genFixed 7 dbDescNone =
      (0, .error (.nameError "name 'RealDictCursor' is not defined")) ∧
    (getOrGenerateDesc genFixed 7 dbDescNone).1 = 0 ∧ ¬ (0 : Nat) = 1 ∧
    ((getOrGenerateDesc genFixed 7 dbDescNone).2).isOk = false := by
  refine ⟨by decide, by decide, by decide, by decide, by decide⟩

/-- Claim C8 amended: get_or_generate returns the cached description
without invoking generation exactly when the entry's text is non-empty;
in every other case — no entry, or empty text — it performs zero
generations and persists nothing: the player lookup raises NameError
(RealDictCursor is never imported in utils.py) before the generation
call, and the error propagates. -/
theorem claim_C8_amended (gen : BaseballPlayer → String) (pid : Int) (db : DB) :
    (∀ t, getPlayerDescription pid db = some t → t ≠ "" →
      getOrGenerateDesc gen pid db = (0, .ok (t, db))) ∧
    (truthyStr (getPlayerDescription pid db) = false →
      getOrGenerateDesc gen pid db =
        (0, .error (.nameError "name 'RealDictCursor' is not defined"))) := by
  constructor
  · intro t hc hne
    unfold getOrGenerateDesc
    rw [hc]
    rw [if_pos (by simp [truthyStr, hne])]
    rfl
  · intro hf
    unfold getOrGenerateDesc
    rw [if_neg (by simp [hf])]
    rfl

/-- Witness for C8 amended: a non-empty entry is returned with zero
generations; with no entry the call fails with zero generations. -/
theorem claim_C8_witness :
    getOrGenerateDesc genFixed 7 dbDescFull =
      (0, .ok ("A legend of the game.", dbDescFull)) ∧
    getOrGenerateDesc genFixed 7 dbDescNone =
      (0, .error (.nameError "name 'RealDictCursor' is not defined")) :=
  ⟨(claim_C8_amended genFixed 7 dbDescFull).1 "A legend of the game."
     (by decide) (by decide),
   (claim_C8_amended genFixed 7 dbDescNone).2 (by decide)⟩

/-- Claim C2: the list endpoint rejects every sort key outside the
allow-list hits / home_runs / hits_per_game with status 400 before
`get_all_players_from_db` is called, so no query is constructed; and
the helper itself never interpolates any query text at all in this
source — it raises NameError at cursor construction, before the
allow-list fallback — so no caller input ever reaches a query. -/
theorem claim_C2_sort_allowlist :
    (∀ s db, ¬ s = "hits" → ¬ s = "home_runs" → ¬ s = "hits_per_game" →
      (getPlayersRoute s db).queriesIssued = [] ∧ (getPlayersRoute s db).status = 400) ∧
    (∀ s db, (getAllPlayersFromDb s db).1 = ([] : List String)) := by
  constructor
  · intro s db h1 h2 h3
    unfold getPlayersRoute
    rw [if_neg (by rintro (hc | hc | hc) <;> [exact h1 hc; exact h2 hc; exact h3 hc])]
    exact ⟨rfl, rfl⟩
  · intro s db
    rfl

/-- Witness for C2: the injection probe of the specification is
answered with 400 and no query. -/
theorem claim_C2_witness :
    (getPlayersRoute "home_runs; DROP TABLE players" dbEmpty).queriesIssued = [] ∧
    (getPlayersRoute "home_runs; DROP TABLE players" dbEmpty).status = 400 :=
  claim_C2_sort_allowlist.1 "home_runs; DROP TABLE players" dbEmpty
    (by decide) (by decide) (by decide)

/-- Claim C4 counterexample: inserting the example player twice into
empty storage succeeds both times — the second create is assigned id 2
rather than failing — and the table then holds two rows with the name
"Babe Ruth", so the schema does not enforce name uniqueness. -/
theorem claim_C4_counterexample :
    (savePlayerToDb ruthPlayer (savePlayerToDb ruthPlayer dbEmpty).2).1 = 2 ∧
    (((savePlayerToDb ruthPlayer (savePlayerToDb ruthPlayer dbEmpty).2).2).rows.filter
      (fun r => decide (r.player_name = PyVal.str "Babe Ruth"))).length = 2 := by
  refine ⟨by decide, by decide⟩

/-- Claim C4 amended: the players DDL declares no UNIQUE constraint (and
no primary key) on player_name — the only index on it is the plain
idx_players_name — and `save_player_to_db` inserts unconditionally,
appending a row regardless of any existing row with the same name; name
uniqueness is maintained only operationally by sync's
lookup-before-insert. -/
theorem claim_C4_amended :
    (∀ c ∈ playersTableColumns, c.colName = "player_name" →
      c.isUnique = false ∧ c.isPrimaryKey = false) ∧
    (∀ p db, savePlayerToDb p db =
      (db.nextId,
       { db with rows := db.rows ++ [mkRow p db.nextId p.is_edited],
                 nextId := db.nextId + 1 })) := by
  constructor
  · decide
  · intro p db
    rfl

/-- Witness for C4 amended: the player_name column declaration carries
no uniqueness constraint. -/
theorem claim_C4_witness :
    ColumnSpec.isUnique ⟨"player_name", false, false⟩ = false ∧
    ColumnSpec.isPrimaryKey ⟨"player_name", false, false⟩ = false :=
  claim_C4_amended.1 ⟨"player_name", false, false⟩ (by decide) rfl

/-- Claim C3 counterexample: the claimed coercion run stores nothing —
update_player first calls get_player_by_id, which raises NameError
(RealDictCursor is never imported in utils.py), so the route answers
500 and the store is unchanged: the stored row keeps games = 2503 and
nothing is set to a zero value by the request. -/
theorem claim_C3_counterexample :
    updatePlayerRoute 1 nullUpdateData dbRuth1 = ⟨500, "server error", dbRuth1⟩ ∧
    (updatePlayerRoute 1 nullUpdateData dbRuth1).db = dbRuth1 ∧
    (∀ r ∈ (updatePlayerRoute 1 nullUpdateData dbRuth1).db.rows,
      ¬ r.games = PyVal.int 0) ∧
    ¬ (500 : Nat) = 200 := by
  refine ⟨by decide, by decide, by decide, by decide⟩

/-- Claim C3 amended: no update request ever stores anything in this
source — the route's initial player lookup raises NameError
(RealDictCursor unimported in utils.py), the handler catches it and
answers 500 with the store unchanged, so in particular no null is ever
stored.  The None-coercion loop itself, were it reached, maps a null
counting statistic to 0, a null rate statistic to 0.0 and a null
is_edited to false (and the route would then set the edit flag true
before writing). -/
theorem claim_C3_amended :
    (∀ pid data db, updatePlayerRoute pid data db = ⟨500, "server error", db⟩) ∧
    (∀ pl, (applyUpdates pl nullUpdateData).games = PyVal.int 0 ∧
      (applyUpdates pl nullUpdateData).batting_average = PyVal.float 0 ∧
      (applyUpdates pl nullUpdateData).is_edited = PyVal.bool false) := by
  constructor
  · intro pid data db
    rfl
  · intro pl
    exact ⟨rfl, rfl, rfl⟩

/-- Claim C1: sync carries the stored is_edited flag (and identity) onto
every matched fetched record, so for every surviving row the flag equals
the stored one — in particular no true flag is ever reset to false —
and every row sync inserts carries a fetched flag, which is false for
records produced by `from_raw`. -/
theorem claim_C1_sync_preserves_edit_flag {F : List BaseballPlayer} {db db1 : DB}
    (hwf : WFdb db.rows db.nextId)
    (hF : ∀ p ∈ F, p.is_edited = PyVal.bool false)
    (h1 : syncPlayersCore F db = .ok db1) :
    (∀ r ∈ db.rows, ∃ r1 ∈ db1.rows, r1.id = r.id ∧ r1.is_edited = r.is_edited) ∧
    (∀ r1 ∈ db1.rows, ∀ r ∈ db.rows, r1.id = r.id → r1.is_edited = r.is_edited) ∧
    (∀ r1 ∈ db1.rows, (∀ r ∈ db.rows, ¬ r1.id = r.id) →
      r1.is_edited = PyVal.bool false) := by
  rw [syncCore_eq_pure hwf] at h1
  have hdb1 := (Except.ok.inj h1).symm
  obtain ⟨t, hsk, hflags⟩ := sync_skels (F := F) hwf
  have hrows : db1.rows = (pureSync F (db.rows, db.nextId)).1 := by rw [hdb1]
  have hnd1 : (idsOf db1.rows).Nodup := by
    rw [hrows]
    exact (wf_sync hwf).2.2
  refine ⟨?_, ?_, ?_⟩
  · intro r hr
    have hskr : skel r ∈ skels db1.rows := by
      rw [hrows, hsk]
      exact List.mem_append_left _ (List.mem_map_of_mem skel hr)
    obtain ⟨r1, hr1, hsk1⟩ :=
      List.mem_map.1 (show skel r ∈ List.map skel db1.rows from hskr)
    exact ⟨r1, hr1, congrArg (fun s : PyVal × Int × PyVal => s.2.1) hsk1,
      congrArg (fun s : PyVal × Int × PyVal => s.2.2) hsk1⟩
  · intro r1 hr1 r hr hid
    have hskr : skel r ∈ skels db1.rows := by
      rw [hrows, hsk]
      exact List.mem_append_left _ (List.mem_map_of_mem skel hr)
    obtain ⟨r2, hr2, hsk2⟩ :=
      List.mem_map.1 (show skel r ∈ List.map skel db1.rows from hskr)
    have hid2 : r2.id = r.id := congrArg (fun s : PyVal × Int × PyVal => s.2.1) hsk2
    have hr12 : r1 = r2 := eq_of_id_eq hnd1 hr1 hr2 (by rw [hid, ← hid2])
    rw [hr12]
    exact congrArg (fun s : PyVal × Int × PyVal => s.2.2) hsk2
  · intro r1 hr1 hnew
    have hskr1 : skel r1 ∈ skels db.rows ++ t := by
      rw [← hsk, ← hrows]
      exact List.mem_map_of_mem skel hr1
    rcases List.mem_append.1 hskr1 with hin | hin
    · obtain ⟨r, hrmem, hske⟩ :=
        List.mem_map.1 (show skel r1 ∈ List.map skel db.rows from hin)
      exact absurd (congrArg (fun s : PyVal × Int × PyVal => s.2.1) hske).symm
        (hnew r hrmem)
    · obtain ⟨p, hp, hpe⟩ := hflags (skel r1) hin
      rw [show r1.is_edited = (skel r1).2.2 from rfl, hpe]
      exact hF p hp

/-- Witness for C1: syncing the example payload over a locally edited
stored row keeps the stored flag (true) and inserts nothing. -/
theorem claim_C1_witness :
    (∀ r ∈ dbRuthEdited.rows, ∃ r1 ∈ dbRuthEdited.rows,
      r1.id = r.id ∧ r1.is_edited = r.is_edited) ∧
    (∀ r1 ∈ dbRuthEdited.rows, ∀ r ∈ dbRuthEdited.rows, r1.id = r.id →
      r1.is_edited = r.is_edited) ∧
    (∀ r1 ∈ dbRuthEdited.rows, (∀ r ∈ dbRuthEdited.rows, ¬ r1.id = r.id) →
      r1.is_edited = PyVal.bool false) :=
  claim_C1_sync_preserves_edit_flag (F := [ruthPlayer]) (by decide) (by decide) (by decide)

/-- Claim C7: sync is idempotent on the player data — a second run with
the unchanged fetched set maps the stored state to itself: same rows
(ids, names, statistics, flags, in the same order), same id counter, no
new rows; only the unmodelled updated_at timestamps differ in the real
store. -/
theorem claim_C7_sync_idempotent {F : List BaseballPlayer} {db db1 : DB}
    (hwf : WFdb db.rows db.nextId)
    (h1 : syncPlayersCore F db = .ok db1) :
    syncPlayersCore F db1 = .ok db1 := by
  rw [syncCore_eq_pure hwf] at h1
  have hdb1 : db1 = { rows := (pureSync F (db.rows, db.nextId)).1, nextId := (pureSync F (db.rows, db.nextId)).2, descriptions := db.descriptions } := (Except.ok.inj h1).symm
  have hwf1 : WFdb db1.rows db1.nextId := by
    rw [hdb1]
    exact wf_sync hwf
  rw [syncCore_eq_pure hwf1]
  have hpair : (db1.rows, db1.nextId) = pureSync F (db.rows, db.nextId) := by
    rw [hdb1]
  have hidem : pureSync F (db1.rows, db1.nextId) = (db1.rows, db1.nextId) := by
    rw [hpair, pureSync_idem hwf]
  rw [hidem]

/-- Witness for C7: a second sync of the example payload over the store
it produced returns that store unchanged. -/
theorem claim_C7_witness :
    syncPlayersCore [ruthPlayer] dbRuth1 = .ok dbRuth1 :=
  @claim_C7_sync_idempotent [ruthPlayer] dbEmpty dbRuth1 (by decide) (by decide)
